import Mathlib

/-!
# Verification of the hayro PDF-syntax byte cursor and DCT filter decoder

Shallow embedding of `hayro-syntax/src/reader.rs` (the byte cursor `Reader`,
the parse context `ReaderContext`, the generic `read`/`skip` backtracking
wrappers) and `hayro-syntax/src/filter/dct.rs` (the DCT/JPEG stream filter
decoder), together with theorems settling the specification claims.

Modelling conventions:
* A byte slice `&'a [u8]` is a `List Nat` of byte values; a `usize` is a `Nat`.
  Where `usize` overflow matters (the `self.offset + len` inside `peek_bytes`)
  the wrap-around of release-profile Rust arithmetic is made explicit with
  `% USIZE`; elsewhere additions are performed on paths where the preceding
  bounds check already rules overflow out for any real buffer.
* A `&mut self` method becomes a state-passing function `Reader → α × Reader`;
  a `&self` method becomes `Reader → α` (so it cannot change the offset by
  construction, exactly as the Rust borrow discipline guarantees).
* The `Readable`/`Skippable` trait methods are higher-order parameters: an
  arbitrary function standing for `T::read` / `T::skip` of a concrete grammar.
* `f32` arithmetic in the YCCK conversion is modelled with exact arithmetic,
  scaled by 1000 so it lives in `ℤ`; the Rust `as u8` float-to-int cast
  (truncate toward zero, then saturate to `[0, 255]`, per Rust semantics
  since 1.45) is `toU8sat`.
-/

/-- The number of values of `usize` on a 64-bit target. -/
def USIZE : ℕ := 2 ^ 64

/-- Rust `<[u8]>::get(start..stop)`: `Some` of the subslice iff `start <= stop` and
`stop <= data.len()`, `None` otherwise (never panics, never reads OOB). -/
def sliceGet (data : List ℕ) (start stop : ℕ) : Option (List ℕ) :=
  if start ≤ stop ∧ stop ≤ data.length then some ((data.drop start).take (stop - start))
  else none

/-- Rust `Reader` from `reader.rs`: a borrowed byte buffer plus a cursor offset. -/
structure Reader where
  data : List ℕ
  offset : ℕ
deriving DecidableEq, Repr

/-- Rust `Reader::new`. -/
def Reader.new (data : List ℕ) : Reader := ⟨data, 0⟩

/-- Rust `Reader::new_with`. -/
def Reader.new_with (data : List ℕ) (offset : ℕ) : Reader := ⟨data, offset⟩

/-- Rust `Reader::at_end`. -/
def Reader.at_end (r : Reader) : Bool := r.data.length ≤ r.offset

/-- Rust `Reader::jump_to_end`. -/
def Reader.jump_to_end (r : Reader) : Reader := { r with offset := r.data.length }

/-- Rust `Reader::jump`: unconditionally sets the offset. -/
def Reader.jump (r : Reader) (offset : ℕ) : Reader := { r with offset := offset }

/-- Rust `Reader::offset`. -/
def Reader.get_offset (r : Reader) : ℕ := r.offset

/-- Rust `Reader::peek_bytes`: `self.data.get(self.offset..self.offset + len)`.
The `usize` addition `self.offset + len` wraps on overflow (release profile),
hence the explicit `% USIZE`. Takes `&self`: the reader is not changed. -/
def Reader.peek_bytes (r : Reader) (len : ℕ) : Option (List ℕ) :=
  sliceGet r.data r.offset ((r.offset + len) % USIZE)

/-- Rust `Reader::peek_byte`: `self.data.get(self.offset).copied()`. -/
def Reader.peek_byte (r : Reader) : Option ℕ := r.data.get? r.offset

/-- Rust `Reader::read_bytes`: peek, then advance by `len`.  On the success path
`peek_bytes` has established `offset + len ≤ data.length`, so the `usize`
addition `self.offset += len` cannot wrap for a real buffer. -/
def Reader.read_bytes (r : Reader) (len : ℕ) : Option (List ℕ) × Reader :=
  match r.peek_bytes len with
  | none => (none, r)
  | some v => (some v, { r with offset := r.offset + len })

/-- Rust `Reader::read_byte`: peek one byte, then advance by 1. -/
def Reader.read_byte (r : Reader) : Option ℕ × Reader :=
  match r.peek_byte with
  | none => (none, r)
  | some v => (some v, { r with offset := r.offset + 1 })

/-- Rust `Reader::skip_bytes`. -/
def Reader.skip_bytes (r : Reader) (len : ℕ) : Option Unit × Reader :=
  match r.read_bytes len with
  | (none, r1) => (none, r1)
  | (some _, r1) => (some (), r1)

/-- Rust `Reader::forward`: `self.offset += 1`, unconditionally. -/
def Reader.forward (r : Reader) : Reader := { r with offset := r.offset + 1 }

/-- Rust `Reader::eat`: consume one byte iff it satisfies the predicate. -/
def Reader.eat (f : ℕ → Bool) (r : Reader) : Option ℕ × Reader :=
  match r.peek_byte with
  | none => (none, r)
  | some val => if f val then (some val, r.forward) else (none, r)

/-- Rust `Reader::forward_if`. -/
def Reader.forward_if (f : ℕ → Bool) (r : Reader) : Option Unit × Reader :=
  match r.peek_byte with
  | none => (none, r)
  | some b => if f b then (some (), r.forward) else (none, r)

/-- Rust `Reader::forward_while`: advance while the predicate holds, stopping at the
first non-matching byte or the end of the buffer; never fails. -/
def Reader.forward_while (f : ℕ → Bool) (r : Reader) : Reader :=
  match h : r.peek_byte with
  | none => r
  | some b =>
    if f b then Reader.forward_while f r.forward else r
termination_by r.data.length - r.offset
decreasing_by
  have hlt : r.offset < r.data.length := by
    by_contra hc
    push_neg at hc
    rw [Reader.peek_byte, List.get?_eq_none.mpr hc] at h
    exact Option.noConfusion h
  simp only [Reader.forward]
  omega

/-- Rust `Reader::forward_while_1`: at least one matching byte, then the rest. -/
def Reader.forward_while_1 (f : ℕ → Bool) (r : Reader) : Option Unit × Reader :=
  match Reader.eat f r with
  | (none, r1) => (none, r1)
  | (some _, r1) => (some (), Reader.forward_while f r1)

/-- Rust `Reader::peek_tag`, inner loop: walks a throwaway cloned cursor over the
tag, comparing byte by byte. -/
def Reader.peek_tag_go (r : Reader) : List ℕ → Option Unit
  | [] => some ()
  | b :: rest =>
    if r.peek_byte = some b then Reader.peek_tag_go r.forward rest else none

/-- Rust `Reader::peek_tag`: checks a literal byte sequence via a cloned cursor, so
the real cursor is untouched (`&self`). -/
def Reader.peek_tag (r : Reader) (tag : List ℕ) : Option Unit :=
  Reader.peek_tag_go r tag

/-- Rust `Reader::forward_tag`: `peek_tag` then `self.offset += tag.len()`. -/
def Reader.forward_tag (r : Reader) (tag : List ℕ) : Option Unit × Reader :=
  match r.peek_tag tag with
  | none => (none, r)
  | some _ => (some (), { r with offset := r.offset + tag.length })

/-- Rust `u8::is_ascii_whitespace` from the Rust standard library:
space, `\t`, `\n`, form feed, `\r`. -/
def isAsciiWhitespace (b : ℕ) : Bool :=
  b == 32 || b == 9 || b == 10 || b == 12 || b == 13

/-- Rust `Reader::read_white_space`: consume one ASCII whitespace byte, treating the
two-byte sequence `\r\n` as a single unit. -/
def Reader.read_white_space (r : Reader) : Option Unit × Reader :=
  match r.peek_byte with
  | none => (none, r)
  | some b =>
    if isAsciiWhitespace b then
      match r.read_byte with
      | (none, r1) => (none, r1)
      | (some w, r1) =>
        if w = 13 ∧ r1.peek_byte = some 10 then
          match r1.read_byte with
          | (none, r2) => (none, r2)
          | (some _, r2) => (some (), r2)
        else (some (), r1)
    else (none, r)

/-- Rust `ObjectIdentifier` from `crate::object`.  Modelled from the spec: the type
itself lives outside `src/`; §3 gives it as an object number plus a generation
number, with only identity/equality needed here. -/
structure ObjectIdentifier where
  number : ℕ
  generation : ℕ
deriving DecidableEq, Repr

/-- Rust `XRef` from `crate::xref`.  Modelled from the spec: the cross-reference
resolver is an external collaborator; §6 gives its interface as
`locate(object_identifier) -> optional location`, with a context-free dummy
instance. -/
structure XRef where
  locate : ObjectIdentifier → Option ℕ

/-- Rust `XRef::dummy`: the context-free resolver used when parsing fragments with
no owning document; it resolves nothing. -/
def XRef.dummy : XRef := ⟨fun _ => none⟩

/-- Rust `ReaderContext` from `reader.rs`. -/
structure ReaderContext where
  xref : XRef
  in_content_stream : Bool
  obj_number : Option ObjectIdentifier
  parent_chain : List ObjectIdentifier

/-- Rust `ReaderContext::new`. -/
def ReaderContext.new (xref : XRef) (in_content_stream : Bool) : ReaderContext :=
  ⟨xref, in_content_stream, none, []⟩

/-- Rust `ReaderContext::dummy`: `Self::new(XRef::dummy(), false)`. -/
def ReaderContext.dummy : ReaderContext :=
  ReaderContext.new XRef.dummy false

/-- The `Readable` capability: `T::read(r, ctx)` of an arbitrary concrete
grammar, as a state-passing function (it may move the cursor freely). -/
def ReadFn (T : Type) : Type :=
  Reader → ReaderContext → Option T × Reader

/-- The `Skippable` capability: `T::skip(r, is_content_stream)` of an
arbitrary concrete grammar. -/
def SkipFn : Type :=
  Reader → Bool → Option Unit × Reader

/-- Generic `Reader::read::<T>`: save the offset, run the grammar, and on
failure restore the saved offset (`or_else`) before returning `None`. -/
def Reader.read {T : Type} (f : ReadFn T) (r : Reader) (ctx : ReaderContext) :
    Option T × Reader :=
  let old_offset := r.offset
  match f r ctx with
  | (none, r1) => (none, { r1 with offset := old_offset })
  | (some v, r1) => (some v, r1)

/-- Rust `Reader::read_with_context`: delegates to `read`. -/
def Reader.read_with_context {T : Type} (f : ReadFn T) (r : Reader)
    (ctx : ReaderContext) : Option T × Reader :=
  Reader.read f r ctx

/-- Rust `Reader::read_without_context`:
`self.read::<T>(&ReaderContext::new(XRef::dummy(), true))`. -/
def Reader.read_without_context {T : Type} (f : ReadFn T) (r : Reader) :
    Option T × Reader :=
  Reader.read f r (ReaderContext.new XRef.dummy true)

/-- Generic `Reader::skip::<T>`: save the offset, run the grammar's skip; on
grammar failure restore the saved offset and return `None`; on grammar success
return `self.data.get(old_offset..self.offset)` — the raw span consumed. -/
def Reader.skip (g : SkipFn) (r : Reader) (is_content_stream : Bool) :
    Option (List ℕ) × Reader :=
  let old_offset := r.offset
  match g r is_content_stream with
  | (none, r1) => (none, { r1 with offset := old_offset })
  | (some _, r1) => (sliceGet r1.data old_offset r1.offset, r1)

/-- Rust `Reader::skip_not_in_content_stream`: `self.skip::<T>(false)`. -/
def Reader.skip_not_in_content_stream (g : SkipFn) (r : Reader) :
    Option (List ℕ) × Reader :=
  Reader.skip g r false

/-- Rust `Reader::skip_in_content_stream`: as written in the source this is
`self.skip::<T>(false)` — the flag passed is `false`, not `true`. -/
def Reader.skip_in_content_stream (g : SkipFn) (r : Reader) :
    Option (List ℕ) × Reader :=
  Reader.skip g r false

/-- Rust `Readable::from_bytes_impl`: build a fresh reader over the bytes and call
the grammar's own `read` (not the backtracking wrapper) under
`ReaderContext::new(XRef::dummy(), false)`, returning just the parsed value. -/
def from_bytes_impl {T : Type} (f : ReadFn T) (b : List ℕ) : Option T :=
  (f (Reader.new b) (ReaderContext.new XRef.dummy false)).1


/-- Rust `zune_core::colorspace::ColorSpace`: the colorspace enumeration of the
external JPEG decoder. -/
inductive ColorSpace where
  | RGB | RGBA | YCbCr | Luma | LumaA | YCCK | CMYK
  | Unknown | BGR | BGRA | ARGB | HSL | HSV
deriving DecidableEq, Repr

/-- The external `zune_jpeg::JpegDecoder`, abstracted over one fixed input
`data`: `header` is the input colorspace when `decode_headers()` succeeds
(`none` when it fails), and `decodeWith c` is the result of a full `decode()`
after `jpeg_set_out_colorspace(c)`.  The Rust code constructs a fresh decoder
from the same `data` for the retry, so both attempts see this same model. -/
structure JpegModel where
  header : Option ColorSpace
  decodeWith : ColorSpace → Option (List ℕ)

/-- The `match decoder.get_input_colorspace().unwrap() { .. }` arms of
`dct.rs::decode`: infer the output colorspace from the declared input
colorspace and the optional `ColorTransform` parameter
(`color_transform.is_none_or(|c| c == 1)`). -/
def infer_out_colorspace (input : ColorSpace) (color_transform : Option ℕ) :
    ColorSpace :=
  match input with
  | ColorSpace.YCbCr =>
    if color_transform = none ∨ color_transform = some 1 then ColorSpace.RGB
    else ColorSpace.YCbCr
  | ColorSpace.RGB | ColorSpace.RGBA => ColorSpace.RGB
  | ColorSpace.Luma | ColorSpace.LumaA => ColorSpace.Luma
  | ColorSpace.CMYK => ColorSpace.CMYK
  | ColorSpace.YCCK => ColorSpace.YCCK
  | _ => ColorSpace.RGB

/-- The retry colorspace of `dct.rs::decode`:
`if matches!(out_colorspace, YCCK | CMYK) { RGB } else { CMYK }`. -/
def retry_colorspace (first : ColorSpace) : ColorSpace :=
  if first = ColorSpace.YCCK ∨ first = ColorSpace.CMYK then ColorSpace.RGB
  else ColorSpace.CMYK

/-- Rust `as u8` applied to an `f32` holding the exact value `n / 1000`:
truncate toward zero, then saturate into `[0, 255]` (Rust float-to-int cast
semantics).  A negative value truncates toward zero and saturates at `0`;
for `n ≥ 0` truncation toward zero is integer division by `1000`. -/
def toU8sat (n : ℤ) : ℕ :=
  if n < 0 then 0 else min 255 (n / 1000).toNat

/-- The loop body of the YCCK post-transform in `dct.rs::decode`: one 4-byte
chunk `[Y, Cb, Cr, K]` is rewritten in place, K unchanged.  The `f32`
expressions `434.456 - y - 1.402*cr`, `119.541 - y + 0.344*cb + 0.714*cr`
and `481.816 - y - 1.772*cb` are modelled by exact real arithmetic; since
every constant has three decimal digits and the expressions are linear in the
integer samples, each value is exactly an integer multiple of `1/1000`, made
explicit here by scaling everything by `1000`. -/
def ycck_pixel (y cb cr k : ℕ) : List ℕ :=
  [toU8sat (434456 - 1000 * (y : ℤ) - 1402 * (cr : ℤ)),
   toU8sat (119541 - 1000 * (y : ℤ) + 344 * (cb : ℤ) + 714 * (cr : ℤ)),
   toU8sat (481816 - 1000 * (y : ℤ) - 1772 * (cb : ℤ)),
   k]

/-- Rust `for c in decoded.chunks_mut(4) { .. }` of the YCCK post-transform: every
full 4-byte chunk is rewritten by `ycck_pixel`; a trailing chunk shorter than
4 bytes is outside the claims (the real decoder output of a 4-channel image
has length divisible by 4) and is left as is. -/
def ycck_to_cmyk : List ℕ → List ℕ
  | y :: cb :: cr :: k :: rest => ycck_pixel y cb cr k ++ ycck_to_cmyk rest
  | rest => rest

/-- Rust `dct.rs::decode(data, params)`.  `color_transform` is
`params.get::<u8>(COLOR_TRANSFORM)` (the external dictionary lookup, already
`None` when the key is absent or mistyped).  Mirrors the source: header parse
(fatal on failure), colorspace inference, first decode, single retry with the
alternate colorspace (re-parsing the headers of a fresh decoder over the same
data), then the YCCK post-transform when the final output colorspace is YCCK. -/
def decode (j : JpegModel) (color_transform : Option ℕ) : Option (List ℕ) :=
  match j.header with
  | none => none
  | some input =>
    let cs1 := infer_out_colorspace input color_transform
    match j.decodeWith cs1 with
    | some decoded =>
      some (if cs1 = ColorSpace.YCCK then ycck_to_cmyk decoded else decoded)
    | none =>
      match j.header with
      | none => none
      | some _ =>
        let cs2 := retry_colorspace cs1
        match j.decodeWith cs2 with
        | some decoded =>
          some (if cs2 = ColorSpace.YCCK then ycck_to_cmyk decoded else decoded)
        | none => none

/-! ## Concrete grammar instances and decoder models

Fixtures used to instantiate the higher-order theorems at concrete inputs:
each is a legitimate implementation of the corresponding capability. -/

/-- A `Skippable` implementation whose `skip` unconditionally advances the
cursor one byte (via `Reader::forward`, which does not bounds-check) and
reports success. -/
def forwardSkip : SkipFn := fun r _ => (some (), r.forward)

/-- A `Skippable` implementation whose `skip` advances one byte and then
fails: a grammar that partially advances before failing. -/
def failSkip : SkipFn := fun r _ => (none, r.forward)

/-- A `Readable Unit` implementation whose `read` advances one byte and then
fails: a grammar that partially advances before failing. -/
def failRead : ReadFn Unit := fun r _ => (none, r.forward)

/-- A `Skippable` implementation that consumes one byte and succeeds exactly
when invoked in content-stream mode, and fails without moving otherwise. -/
def flagSkip : SkipFn := fun r is_content_stream =>
  if is_content_stream then (some (), r.forward) else (none, r)

/-- A `Readable` implementation that returns the context it was invoked with,
without moving the cursor. -/
def ctxGrammar : ReadFn ReaderContext := fun r ctx => (some ctx, r)

/-- A `Readable Bool` implementation that returns the `in_content_stream` flag
of the context it was invoked with, without moving the cursor. -/
def flagGrammar : ReadFn Bool := fun r ctx => (some ctx.in_content_stream, r)

/-- A JPEG whose header declares YCCK input and which decodes to the single
pixel `[Y=0, Cb=0, Cr=0, K=255]` when asked for YCCK output. -/
def jYcck : JpegModel :=
  ⟨some ColorSpace.YCCK,
   fun c => if c = ColorSpace.YCCK then some [0, 0, 0, 255] else none⟩

/-! ## Helper lemmas -/

/-- A successful `peek_byte` pins the offset strictly below the buffer length
and returns exactly the byte stored there. -/
theorem peek_byte_some_lt (r : Reader) (b : ℕ) (h : r.peek_byte = some b) :
    r.offset < r.data.length := by
  by_contra hc
  push_neg at hc
  rw [Reader.peek_byte, List.get?_eq_none.mpr hc] at h
  exact Option.noConfusion h

/-- Lemma: `peek_byte` at or past the end of the buffer fails. -/
theorem peek_byte_none_of_le (r : Reader) (h : r.data.length ≤ r.offset) :
    r.peek_byte = none := by
  rw [Reader.peek_byte]
  exact List.get?_eq_none.mpr h

/-- Exact behaviour of `peek_bytes` for `usize`-representable offsets and
lengths: fails whenever the requested range sticks out of the buffer (whether
or not the `usize` addition wraps), and a success returns exactly the
requested in-bounds subslice. -/
theorem peek_bytes_spec (r : Reader) (len : ℕ) (ho : r.offset < USIZE)
    (hl : len < USIZE) :
    (r.data.length < r.offset + len → r.peek_bytes len = none)
    ∧ (∀ v, r.peek_bytes len = some v →
        r.offset + len ≤ r.data.length ∧ v = (r.data.drop r.offset).take len) := by
  rw [Reader.peek_bytes, sliceGet]
  by_cases hw : r.offset + len < USIZE
  · rw [Nat.mod_eq_of_lt hw]
    constructor
    · intro hout
      rw [if_neg]
      rintro ⟨-, h2⟩
      omega
    · intro v hv
      split at hv
      · rename_i hcond
        refine ⟨hcond.2, ?_⟩
        have : r.offset + len - r.offset = len := by omega
        rw [this] at hv
        exact (Option.some.injEq _ _).mp hv |>.symm
      · exact Option.noConfusion hv
  · push_neg at hw
    have hlt2 : r.offset + len < 2 * USIZE := by omega
    have hmod : (r.offset + len) % USIZE = r.offset + len - USIZE := by
      rw [Nat.mod_eq_sub_mod hw]
      exact Nat.mod_eq_of_lt (by omega)
    rw [hmod]
    have hsmall : r.offset + len - USIZE < r.offset := by omega
    constructor
    · intro _
      rw [if_neg]
      rintro ⟨h1, -⟩
      omega
    · intro v hv
      rw [if_neg] at hv
      · exact Option.noConfusion hv
      · rintro ⟨h1, -⟩
        omega

/-- Exact behaviour of `read_bytes`: a failure leaves the reader untouched; a
success means the range was in bounds, returns the requested subslice and
advances the offset by exactly `len`. -/
theorem read_bytes_spec (r : Reader) (len : ℕ) (ho : r.offset < USIZE)
    (hl : len < USIZE) :
    ((r.read_bytes len).1 = none → r.read_bytes len = (none, r))
    ∧ (∀ v r1, r.read_bytes len = (some v, r1) →
        r.offset + len ≤ r.data.length
        ∧ v = (r.data.drop r.offset).take len
        ∧ r1 = { r with offset := r.offset + len }) := by
  rw [Reader.read_bytes]
  rcases hpk : r.peek_bytes len with _ | v0
  · exact ⟨fun _ => rfl, fun v r1 hv => Option.noConfusion (congrArg Prod.fst hv)⟩
  · have hspec := (peek_bytes_spec r len ho hl).2 v0 hpk
    constructor
    · intro h
      exact Option.noConfusion h
    · intro v r1 hv
      obtain ⟨hv1, hv2⟩ := Prod.mk.injEq _ _ _ _ ▸ hv
      cases hv1
      exact ⟨hspec.1, hspec.2, hv2.symm ▸ rfl⟩

/-- Exact behaviour of `read_byte`: a failure leaves the reader untouched; a
success returns the byte at the offset and advances by exactly 1. -/
theorem read_byte_spec (r : Reader) :
    ((r.read_byte).1 = none → r.read_byte = (none, r))
    ∧ (∀ v r1, r.read_byte = (some v, r1) →
        r.data.get? r.offset = some v
        ∧ r.offset < r.data.length
        ∧ r1 = { r with offset := r.offset + 1 }) := by
  rw [Reader.read_byte]
  rcases hpk : r.peek_byte with _ | v0
  · exact ⟨fun _ => rfl, fun v r1 hv => Option.noConfusion (congrArg Prod.fst hv)⟩
  · constructor
    · intro h
      exact Option.noConfusion h
    · intro v r1 hv
      obtain ⟨hv1, hv2⟩ := Prod.mk.injEq _ _ _ _ ▸ hv
      cases hv1
      exact ⟨hpk ▸ rfl, peek_byte_some_lt r v0 hpk, hv2.symm ▸ rfl⟩

/-- Lemma: `forward_while` keeps the buffer and, started inside the buffer, never
moves the offset past the end (it stops at the first non-matching byte or at
the end).  Fuel-indexed formulation for the induction. -/
theorem forward_while_preserves_aux (f : ℕ → Bool) :
    ∀ (k : ℕ) (r : Reader), r.data.length - r.offset ≤ k →
      (Reader.forward_while f r).data = r.data
      ∧ (r.offset ≤ r.data.length →
          (Reader.forward_while f r).offset ≤ r.data.length) := by
  intro k
  induction k with
  | zero =>
    intro r hk
    rw [Reader.forward_while.eq_def]
    have hn : r.peek_byte = none := peek_byte_none_of_le r (by omega)
    split
    · exact ⟨rfl, fun h => h⟩
    · rename_i b hpeek
      rw [hn] at hpeek
      exact Option.noConfusion hpeek
  | succ k ih =>
    intro r hk
    rw [Reader.forward_while.eq_def]
    split
    · exact ⟨rfl, fun h => h⟩
    · rename_i b hpeek
      split
      · have hlt : r.offset < r.data.length := peek_byte_some_lt r b hpeek
        have hk2 : (r.forward).data.length - (r.forward).offset ≤ k := by
          simp only [Reader.forward]
          omega
        have hrec := ih r.forward hk2
        refine ⟨by simpa [Reader.forward] using hrec.1, fun _ => ?_⟩
        have h2 := hrec.2 (by simp only [Reader.forward]; omega)
        simpa [Reader.forward] using h2
      · exact ⟨rfl, fun h => h⟩

/-- Lemma: `forward_while` preserves the buffer and the in-bounds invariant. -/
theorem forward_while_preserves (f : ℕ → Bool) (r : Reader) :
    (Reader.forward_while f r).data = r.data
    ∧ (r.offset ≤ r.data.length →
        (Reader.forward_while f r).offset ≤ r.data.length) :=
  forward_while_preserves_aux f (r.data.length - r.offset) r le_rfl

/-- A successful nonempty `peek_tag_go` bounds `offset + tag.len()` by the
buffer length (the last byte examined lies inside the buffer). -/
theorem peek_tag_go_bound :
    ∀ (tag : List ℕ) (r : Reader), Reader.peek_tag_go r tag = some () →
      tag ≠ [] → r.offset + tag.length ≤ r.data.length := by
  intro tag
  induction tag with
  | nil =>
    intro r _ hne
    exact absurd rfl hne
  | cons b rest ih =>
    intro r h _
    rw [Reader.peek_tag_go] at h
    split at h
    · rename_i hpk
      have hlt : r.offset < r.data.length := peek_byte_some_lt r b hpk
      rcases rest with _ | ⟨c, rest2⟩
      · simpa using hlt
      · have hrec := ih r.forward h (by simp)
        simp only [Reader.forward, List.length_cons] at hrec ⊢
        omega
    · exact Option.noConfusion h

/-! ## Claim theorems -/

/-- C7: for every cursor state and every `usize` length `n`, `peek_byte()` and
`peek_bytes(n)` return no value when the requested range is out of bounds and
otherwise return exactly the in-bounds bytes, so they never read out of
bounds; they are total functions of the reader (no panic — in particular the
`offset + n` overflow wraps and then fails the range check), and they take the
reader immutably, so the offset is unchanged by construction
(`peek_bytes r n` and `peek_byte r` return only the peeked value and no
successor state). -/
theorem peek_no_advance_no_oob (r : Reader) (len : ℕ)
    (ho : r.offset < USIZE) (hl : len < USIZE) :
    (r.data.length < r.offset + len → r.peek_bytes len = none)
    ∧ (∀ v, r.peek_bytes len = some v →
        r.offset + len ≤ r.data.length ∧ v = (r.data.drop r.offset).take len)
    ∧ (r.data.length ≤ r.offset → r.peek_byte = none)
    ∧ (∀ b, r.peek_byte = some b →
        r.offset < r.data.length ∧ r.data.get? r.offset = some b) := by
  refine ⟨(peek_bytes_spec r len ho hl).1, (peek_bytes_spec r len ho hl).2,
    peek_byte_none_of_le r, fun b hb => ⟨peek_byte_some_lt r b hb, hb⟩⟩

/-- Witness for C7 at a concrete cursor: buffer `[1, 2, 3]`, offset `1`,
length `5` (out of range, so the peek fails) and the in-range `peek_byte`. -/
theorem peek_no_advance_no_oob_witness :
    (Reader.new_with [1, 2, 3] 1).peek_bytes 5 = none
    ∧ (Reader.new_with [1, 2, 3] 1).offset < USIZE := by
  have h := peek_no_advance_no_oob (Reader.new_with [1, 2, 3] 1) 5
    (by decide) (by decide)
  exact ⟨h.1 (by decide), by decide⟩

/-- C8: `read_byte()` and `read_bytes(n)` advance the offset by exactly the
number of bytes consumed (`1`, respectively `n`) on success, and leave the
whole cursor unchanged on failure. -/
theorem read_advances_exactly (r : Reader) (len : ℕ)
    (ho : r.offset < USIZE) (hl : len < USIZE) :
    (∀ v r1, r.read_bytes len = (some v, r1) →
        r1.offset = r.offset + len ∧ r1.data = r.data)
    ∧ ((r.read_bytes len).1 = none → (r.read_bytes len).2 = r)
    ∧ (∀ v r1, r.read_byte = (some v, r1) →
        r1.offset = r.offset + 1 ∧ r1.data = r.data)
    ∧ ((r.read_byte).1 = none → (r.read_byte).2 = r) := by
  refine ⟨?_, ?_, ?_, ?_⟩
  · intro v r1 hv
    have h := (read_bytes_spec r len ho hl).2 v r1 hv
    rw [h.2.2]
    exact ⟨rfl, rfl⟩
  · intro h
    rw [(read_bytes_spec r len ho hl).1 h]
  · intro v r1 hv
    have h := (read_byte_spec r).2 v r1 hv
    rw [h.2.2]
    exact ⟨rfl, rfl⟩
  · intro h
    rw [(read_byte_spec r).1 h]

/-- Witness for C8 at a concrete cursor: buffer `[5, 6]`, offset `0`, reading
2 bytes succeeds and lands at offset `2`; on `[]` the read fails and the
cursor is unchanged. -/
theorem read_advances_exactly_witness :
    ((Reader.new [5, 6]).read_bytes 2).2.offset = 0 + 2
    ∧ ((Reader.new ([] : List ℕ)).read_bytes 2).2 = Reader.new [] := by
  constructor
  · exact ((read_advances_exactly (Reader.new [5, 6]) 2 (by decide) (by decide)).1
      [5, 6] ((Reader.new [5, 6]).read_bytes 2).2 (by decide)).1
  · exact (read_advances_exactly (Reader.new []) 2 (by decide) (by decide)).2.1
      (by decide)

/-- C9: a single `read_white_space` call on input starting with `\r\n`
advances the offset by exactly 2 bytes (the two-byte terminator is one unit),
and on input starting with `\n` by exactly 1 byte. -/
theorem read_white_space_crlf_unit (r : Reader) :
    (r.data.get? r.offset = some 13 → r.data.get? (r.offset + 1) = some 10 →
      r.read_white_space = (some (), { r with offset := r.offset + 2 }))
    ∧ (r.data.get? r.offset = some 10 →
      r.read_white_space = (some (), { r with offset := r.offset + 1 })) := by
  constructor
  · intro h13 h10
    have hp1 : r.peek_byte = some 13 := h13
    have hrb1 : r.read_byte = (some 13, { r with offset := r.offset + 1 }) := by
      rw [Reader.read_byte, hp1]
    have hp2 : ({ r with offset := r.offset + 1 } : Reader).peek_byte = some 10 := h10
    have hrb2 : ({ r with offset := r.offset + 1 } : Reader).read_byte
        = (some 10, { r with offset := r.offset + 1 + 1 }) := by
      rw [Reader.read_byte, hp2]
    simp only [Reader.read_white_space, hp1, hrb1, hp2, hrb2, isAsciiWhitespace]
    norm_num
  · intro h10
    have hp1 : r.peek_byte = some 10 := h10
    have hrb1 : r.read_byte = (some 10, { r with offset := r.offset + 1 }) := by
      rw [Reader.read_byte, hp1]
    simp only [Reader.read_white_space, hp1, hrb1, isAsciiWhitespace]
    norm_num

/-- Witness for C9 at concrete inputs: `"\r\nA"` advances to offset 2,
`"\nA"` advances to offset 1. -/
theorem read_white_space_crlf_unit_witness :
    (Reader.new [13, 10, 65]).read_white_space
      = (some (), Reader.new_with [13, 10, 65] 2)
    ∧ (Reader.new [10, 65]).read_white_space
      = (some (), Reader.new_with [10, 65] 1) := by
  exact ⟨(read_white_space_crlf_unit (Reader.new [13, 10, 65])).1 rfl rfl,
    (read_white_space_crlf_unit (Reader.new [10, 65])).2 rfl⟩

/-- C1, counterexample: the claim fails as stated for the span capability.
`forwardSkip` is a `Skippable` implementation that reports success after
advancing past the end of the empty buffer; the final span extraction
`self.data.get(old_offset..self.offset)` then fails, so the generic `skip`
call returns no value — but the offset is `1`, not restored to `0`, because
the `or_else` rollback only covers failures of `T::skip` itself. -/
theorem skip_failure_can_leave_offset_advanced_cex :
    (Reader.skip forwardSkip (Reader.new []) false).1 = none
    ∧ (Reader.skip forwardSkip (Reader.new []) false).2.offset = 1
    ∧ (Reader.new ([] : List ℕ)).offset = 0 := by
  exact ⟨rfl, rfl, rfl⟩

/-- C1 (amended): for every `Readable` grammar, every cursor state and every
context, a failing generic `read` restores the offset — even when the grammar
partially advanced the cursor before failing.  For every `Skippable` grammar,
a failure of the grammar itself likewise restores the offset; the one
remaining failure mode of generic `skip` is a grammar that *succeeds* with a
final offset outside `[start offset, buffer length]`, in which case `skip`
returns no value without restoring the offset (whenever the grammar succeeds
in bounds, `skip` succeeds and returns the raw span consumed). -/
theorem read_skip_backtracking (T : Type) (f : ReadFn T) (g : SkipFn)
    (r : Reader) (ctx : ReaderContext) (is_content_stream : Bool) :
    ((Reader.read f r ctx).1 = none → (Reader.read f r ctx).2.offset = r.offset)
    ∧ ((g r is_content_stream).1 = none →
        (Reader.skip g r is_content_stream).2.offset = r.offset)
    ∧ (∀ r1 : Reader, g r is_content_stream = (some (), r1) →
        r.offset ≤ r1.offset → r1.offset ≤ r1.data.length →
        Reader.skip g r is_content_stream
          = (some ((r1.data.drop r.offset).take (r1.offset - r.offset)), r1)) := by
  refine ⟨?_, ?_, ?_⟩
  · intro h
    rw [Reader.read] at h ⊢
    rcases hf : f r ctx with ⟨o, r1⟩
    cases o <;> simp [hf] at h ⊢
  · intro h
    rw [Reader.skip]
    rcases hg : g r is_content_stream with ⟨o, r1⟩
    rw [hg] at h
    cases o with
    | none => rfl
    | some v => exact Option.noConfusion h
  · intro r1 hg h1 h2
    rw [Reader.skip, hg]
    simp only [sliceGet]
    rw [if_pos ⟨h1, h2⟩]

/-- Witness for C1 (amended): a `Readable` and a `Skippable` grammar that
advance one byte and then fail have their offset restored by the generic
wrappers; a `Skippable` grammar that succeeds in bounds yields its span. -/
theorem read_skip_backtracking_witness :
    (Reader.read failRead (Reader.new_with [7, 8] 1) ReaderContext.dummy).2.offset = 1
    ∧ (Reader.skip failSkip (Reader.new_with [7, 8] 1) false).2.offset = 1
    ∧ Reader.skip forwardSkip (Reader.new [7]) false
        = (some [7], Reader.new_with [7] 1) := by
  refine ⟨?_, ?_, ?_⟩
  · exact (read_skip_backtracking Unit failRead failSkip
      (Reader.new_with [7, 8] 1) ReaderContext.dummy false).1 rfl
  · exact (read_skip_backtracking Unit failRead failSkip
      (Reader.new_with [7, 8] 1) ReaderContext.dummy false).2.1 rfl
  · exact (read_skip_backtracking Unit failRead forwardSkip
      (Reader.new [7]) ReaderContext.dummy false).2.2
      (Reader.new_with [7] 1) rfl (by decide) (by decide)

/-- C2, counterexample: the invariant `offset ≤ data.length` is not preserved
by every cursor operation: `jump(5)` on an empty buffer sets the offset to 5,
and `forward()` on an empty buffer (offset 0, length 0) sets it to 1 — both
past the end of the buffer. -/
theorem jump_forward_exceed_length_cex :
    ((Reader.new []).jump 5).offset = 5
    ∧ ((Reader.new []).jump 5).data.length = 0
    ∧ ((Reader.new []).forward).offset = 1
    ∧ ((Reader.new []).forward).data.length = 0 := by
  exact ⟨rfl, rfl, rfl, rfl⟩

/-- Lemma: `eat` either fails leaving the cursor unchanged, or consumes exactly the
peeked byte, which lies inside the buffer. -/
theorem eat_cases (f : ℕ → Bool) (r : Reader) :
    Reader.eat f r = (none, r)
    ∨ (∃ v, Reader.eat f r = (some v, r.forward) ∧ r.offset < r.data.length) := by
  rcases hpk : r.peek_byte with _ | v
  · left
    simp only [Reader.eat, hpk]
  · by_cases hf : f v = true
    · right
      exact ⟨v, by simp only [Reader.eat, hpk, if_pos hf],
        peek_byte_some_lt r v hpk⟩
    · left
      simp only [Reader.eat, hpk, if_neg hf]

/-- Lemma: `forward_if` either fails leaving the cursor unchanged, or advances over
one byte lying inside the buffer. -/
theorem forward_if_cases (f : ℕ → Bool) (r : Reader) :
    Reader.forward_if f r = (none, r)
    ∨ (Reader.forward_if f r = (some (), r.forward) ∧ r.offset < r.data.length) := by
  rcases hpk : r.peek_byte with _ | v
  · left
    simp only [Reader.forward_if, hpk]
  · by_cases hf : f v = true
    · right
      exact ⟨by simp only [Reader.forward_if, hpk, if_pos hf],
        peek_byte_some_lt r v hpk⟩
    · left
      simp only [Reader.forward_if, hpk, if_neg hf]

/-- Lemma: `forward_tag` either fails leaving the cursor unchanged, or advances by
the tag length, staying inside the buffer for a nonempty tag. -/
theorem forward_tag_cases (r : Reader) (tag : List ℕ) :
    r.forward_tag tag = (none, r)
    ∨ (r.forward_tag tag = (some (), { r with offset := r.offset + tag.length })
        ∧ (tag = [] ∨ r.offset + tag.length ≤ r.data.length)) := by
  rcases ht : r.peek_tag tag with _ | u
  · left
    simp only [Reader.forward_tag, ht]
  · right
    refine ⟨by simp only [Reader.forward_tag, ht], ?_⟩
    by_cases htag : tag = []
    · exact Or.inl htag
    · refine Or.inr (peek_tag_go_bound tag r ?_ htag)
      rw [Reader.peek_tag] at ht
      cases u
      exact ht

/-- Lemma: `read_white_space` keeps the offset inside the buffer. -/
theorem read_white_space_le (r : Reader) (h : r.offset ≤ r.data.length) :
    (r.read_white_space).2.offset ≤ r.data.length := by
  rw [Reader.read_white_space.eq_def]
  split
  · exact h
  · rename_i b hpk
    split
    · split
      · rename_i r1 hrb
        have h2 : r1 = r := congrArg Prod.snd ((read_byte_spec r).1 (by rw [hrb]) ▸ hrb).symm
        rw [h2]
        exact h
      · rename_i w r1 hrb
        have hr1 := (read_byte_spec r).2 w r1 hrb
        split
        · split
          · rename_i r2 hrb2
            have h2 : r2 = r1 :=
              congrArg Prod.snd ((read_byte_spec r1).1 (by rw [hrb2]) ▸ hrb2).symm
            rw [h2, hr1.2.2]
            exact hr1.2.1
          · rename_i v2 r2 hrb2
            have hr2 := (read_byte_spec r1).2 v2 r2 hrb2
            rw [hr2.2.2]
            have hd : r1.data = r.data := by rw [hr1.2.2]
            have hlt := hr2.2.1
            rw [hd] at hlt
            have ho1 : r1.offset = r.offset + 1 := by rw [hr1.2.2]
            simp only [ho1] at hlt ⊢
            omega
        · rw [hr1.2.2]
          exact hr1.2.1
    · exact h

/-- C2 (amended): starting from a cursor satisfying `offset ≤ data.length`,
every bounds-checked cursor operation preserves the invariant
`0 ≤ offset ≤ data.length` (the lower bound holds because offsets are
unsigned); `forward()` increments unconditionally and preserves the invariant
only when the cursor is not yet at the end (as at every internal call site,
where it is guarded by a successful peek), and `jump(n)` sets the offset to
`n` unconditionally and preserves the invariant exactly when `n ≤
data.length`.  An offset past the end is benign: every subsequent read/peek
fails rather than reading out of bounds. -/
theorem cursor_offset_invariant (r : Reader) (h : r.offset ≤ r.data.length) :
    (∀ len, r.offset < USIZE → len < USIZE →
        (r.read_bytes len).2.offset ≤ r.data.length)
    ∧ (r.read_byte).2.offset ≤ r.data.length
    ∧ (∀ len, r.offset < USIZE → len < USIZE →
        (r.skip_bytes len).2.offset ≤ r.data.length)
    ∧ (∀ f, (Reader.eat f r).2.offset ≤ r.data.length)
    ∧ (∀ f, (Reader.forward_if f r).2.offset ≤ r.data.length)
    ∧ (∀ f, (Reader.forward_while f r).offset ≤ r.data.length)
    ∧ (∀ f, (Reader.forward_while_1 f r).2.offset ≤ r.data.length)
    ∧ (∀ tag, (r.forward_tag tag).2.offset ≤ r.data.length)
    ∧ (r.read_white_space).2.offset ≤ r.data.length
    ∧ (r.jump_to_end).offset ≤ r.data.length
    ∧ (r.offset < r.data.length → (r.forward).offset ≤ r.data.length)
    ∧ (∀ n, n ≤ r.data.length → (r.jump n).offset ≤ r.data.length) := by
  have hreadbytes : ∀ len, r.offset < USIZE → len < USIZE →
      (r.read_bytes len).2.offset ≤ r.data.length := by
    intro len ho hl
    rcases hr : r.read_bytes len with ⟨o, r1⟩
    cases o with
    | none =>
      have h2 : r1 = r :=
        congrArg Prod.snd ((read_bytes_spec r len ho hl).1 (by rw [hr]) ▸ hr).symm
      rw [h2]
      exact h
    | some v =>
      have hs := (read_bytes_spec r len ho hl).2 v r1 hr
      rw [hs.2.2]
      exact hs.1
  have hreadbyte : (r.read_byte).2.offset ≤ r.data.length := by
    rcases hr : r.read_byte with ⟨o, r1⟩
    cases o with
    | none =>
      have h2 : r1 = r :=
        congrArg Prod.snd ((read_byte_spec r).1 (by rw [hr]) ▸ hr).symm
      rw [h2]
      exact h
    | some v =>
      have hs := (read_byte_spec r).2 v r1 hr
      rw [hs.2.2]
      exact hs.2.1
  have heat : ∀ f, (Reader.eat f r).2.offset ≤ r.data.length := by
    intro f
    rcases eat_cases f r with he | ⟨v, he, hlt⟩
    · rw [he]
      exact h
    · rw [he]
      simpa [Reader.forward] using hlt
  refine ⟨hreadbytes, hreadbyte, ?_, heat, ?_, ?_, ?_, ?_,
    read_white_space_le r h, le_rfl, ?_, ?_⟩
  · intro len ho hl
    rw [Reader.skip_bytes]
    rcases hr : r.read_bytes len with ⟨o, r1⟩
    have := hreadbytes len ho hl
    rw [hr] at this
    cases o <;> exact this
  · intro f
    rcases forward_if_cases f r with he | ⟨he, hlt⟩
    · rw [he]
      exact h
    · rw [he]
      simpa [Reader.forward] using hlt
  · intro f
    exact (forward_while_preserves f r).2 h
  · intro f
    rw [Reader.forward_while_1]
    rcases he : Reader.eat f r with ⟨o, r1⟩
    rcases eat_cases f r with he2 | ⟨v, he2, hlt⟩ <;> rw [he2] at he <;>
      obtain ⟨ho, hr1⟩ := Prod.mk.injEq _ _ _ _ ▸ he
    · rw [← ho, ← hr1]
      exact h
    · rw [← ho]
      have hpre : r1.offset ≤ r1.data.length := by
        rw [← hr1]
        simpa [Reader.forward] using hlt
      have hfw := (forward_while_preserves f r1).2 hpre
      have hd : r1.data = r.data := by
        rw [← hr1]
        rfl
      rw [hd] at hfw
      exact hfw
  · intro tag
    rcases forward_tag_cases r tag with he | ⟨he, hb⟩
    · rw [he]
      exact h
    · rw [he]
      rcases hb with hb | hb
      · rw [hb]
        simpa using h
      · simpa using hb
  · intro hlt
    simpa [Reader.forward] using hlt
  · intro n hn
    exact hn

/-- Witness for C2 (amended) at a concrete cursor: buffer `[1, 2]`, offset 0;
reading one byte and jumping to `2` both stay within the buffer. -/
theorem cursor_offset_invariant_witness :
    ((Reader.new [1, 2]).read_bytes 1).2.offset ≤ (Reader.new [1, 2]).data.length
    ∧ ((Reader.new [1, 2]).jump 2).offset ≤ (Reader.new [1, 2]).data.length := by
  have hc := cursor_offset_invariant (Reader.new [1, 2]) (by decide)
  exact ⟨hc.1 1 (by decide) (by decide),
    hc.2.2.2.2.2.2.2.2.2.2.2 2 (by decide)⟩

/-- C3: the first decode attempt of the DCT filter targets the output
colorspace inferred from the declared input colorspace and the optional
color-transform parameter: YCbCr with the parameter absent or equal to 1
targets RGB, YCbCr with any other value targets YCbCr; RGB and RGBA target
RGB; Luma and LumaA target Luma; CMYK targets CMYK; YCCK targets YCCK; every
other declared input colorspace targets RGB. -/
theorem dct_first_attempt_colorspace (ct : Option ℕ) :
    infer_out_colorspace ColorSpace.YCbCr none = ColorSpace.RGB
    ∧ infer_out_colorspace ColorSpace.YCbCr (some 1) = ColorSpace.RGB
    ∧ (∀ c : ℕ, c ≠ 1 →
        infer_out_colorspace ColorSpace.YCbCr (some c) = ColorSpace.YCbCr)
    ∧ infer_out_colorspace ColorSpace.RGB ct = ColorSpace.RGB
    ∧ infer_out_colorspace ColorSpace.RGBA ct = ColorSpace.RGB
    ∧ infer_out_colorspace ColorSpace.Luma ct = ColorSpace.Luma
    ∧ infer_out_colorspace ColorSpace.LumaA ct = ColorSpace.Luma
    ∧ infer_out_colorspace ColorSpace.CMYK ct = ColorSpace.CMYK
    ∧ infer_out_colorspace ColorSpace.YCCK ct = ColorSpace.YCCK
    ∧ (∀ input,
        input = ColorSpace.Unknown ∨ input = ColorSpace.BGR
          ∨ input = ColorSpace.BGRA ∨ input = ColorSpace.ARGB
          ∨ input = ColorSpace.HSL ∨ input = ColorSpace.HSV →
        infer_out_colorspace input ct = ColorSpace.RGB)
    ∧ (∀ j : JpegModel, ∀ input, j.header = some input →
        decode j ct =
          match j.decodeWith (infer_out_colorspace input ct) with
          | some decoded =>
            some (if infer_out_colorspace input ct = ColorSpace.YCCK then
                    ycck_to_cmyk decoded
                  else decoded)
          | none =>
            match j.decodeWith (retry_colorspace (infer_out_colorspace input ct)) with
            | some decoded =>
              some (if retry_colorspace (infer_out_colorspace input ct)
                      = ColorSpace.YCCK then
                      ycck_to_cmyk decoded
                    else decoded)
            | none => none) := by
  refine ⟨rfl, rfl, ?_, rfl, rfl, rfl, rfl, rfl, rfl, ?_, ?_⟩
  · intro c hc
    rw [infer_out_colorspace]
    rw [if_neg]
    rintro (hn | h1)
    · exact Option.noConfusion hn
    · exact hc (Option.some.injEq _ _ ▸ h1)
  · rintro input (h | h | h | h | h | h) <;> rw [h] <;> rfl
  · intro j input hh
    rw [decode, hh]

/-- Witness for C3 at concrete inputs: parameter value 0 disables the YCbCr
transform; BGR input falls to the catch-all RGB arm; a YCbCr JPEG model that
decodes everywhere goes through the first attempt. -/
theorem dct_first_attempt_colorspace_witness :
    infer_out_colorspace ColorSpace.YCbCr (some 0) = ColorSpace.YCbCr
    ∧ infer_out_colorspace ColorSpace.BGR (some 0) = ColorSpace.RGB
    ∧ decode ⟨some ColorSpace.YCbCr, fun _ => some [1]⟩ (some 0) = some [1] := by
  have h := dct_first_attempt_colorspace (some 0)
  refine ⟨h.2.2.1 0 (by decide), h.2.2.2.2.2.2.2.2.2.1 ColorSpace.BGR
    (Or.inr (Or.inl rfl)), ?_⟩
  rw [h.2.2.2.2.2.2.2.2.2.2 ⟨some ColorSpace.YCbCr, fun _ => some [1]⟩
    ColorSpace.YCbCr rfl]
  rfl

/-- C4: the DCT decode returns no value exactly when the header parse fails
(no decode attempted), or the first full decode fails and the single retry —
which targets RGB when the first attempt targeted YCCK or CMYK and CMYK
otherwise — fails too; a failed decode is never replaced by a default
buffer. -/
theorem dct_decode_none_iff (j : JpegModel) (ct : Option ℕ) :
    (decode j ct = none ↔
      j.header = none ∨
      ∃ input, j.header = some input
        ∧ j.decodeWith (infer_out_colorspace input ct) = none
        ∧ j.decodeWith (retry_colorspace (infer_out_colorspace input ct)) = none)
    ∧ retry_colorspace ColorSpace.YCCK = ColorSpace.RGB
    ∧ retry_colorspace ColorSpace.CMYK = ColorSpace.RGB
    ∧ retry_colorspace ColorSpace.RGB = ColorSpace.CMYK
    ∧ retry_colorspace ColorSpace.YCbCr = ColorSpace.CMYK
    ∧ retry_colorspace ColorSpace.Luma = ColorSpace.CMYK := by
  refine ⟨?_, rfl, rfl, rfl, rfl, rfl⟩
  rcases hh : j.header with _ | input
  · simp [decode, hh]
  · rw [decode, hh]
    rcases h1 : j.decodeWith (infer_out_colorspace input ct) with _ | d1
    · rcases h2 : j.decodeWith (retry_colorspace (infer_out_colorspace input ct))
        with _ | d2
      · simp only [hh, h1, h2]
        constructor
        · intro _
          exact Or.inr ⟨input, rfl, h1, h2⟩
        · intro _
          trivial
      · simp only [hh, h1, h2]
        constructor
        · intro hx
          exact absurd hx (by simp)
        · rintro (hn | ⟨i2, hi2, -, hr2⟩)
          · exact Option.noConfusion hn
          · have hinp : input = i2 := by injection hi2
            rw [← hinp] at hr2
            rw [hr2] at h2
            exact Option.noConfusion h2
    · simp only [hh, h1]
      constructor
      · intro hx
        exact absurd hx (by simp)
      · rintro (hn | ⟨i2, hi2, hd2, -⟩)
        · exact Option.noConfusion hn
        · have hinp : input = i2 := by injection hi2
          rw [← hinp] at hd2
          rw [hd2] at h1
          exact Option.noConfusion h1

/-- C5, counterexample: the claim's truncation rule is wrong on the code.
For the pixel `[Y=0, Cb=0, Cr=0, K=255]` the claim predicts channels
`178 = 434 mod 256` and `225 = 481 mod 256`, i.e. a wrapping `mod 256`
conversion; the Rust `as u8` cast saturates instead, so the decoder produces
`[255, 119, 255, 255]`. -/
theorem ycck_truncation_cex :
    decode jYcck none = some [255, 119, 255, 255]
    ∧ decode jYcck none ≠ some [178, 119, 225, 255] := by
  constructor
  · decide
  · decide

/-- C5 (amended): when the final output colorspace is YCCK, the decoder
rewrites every 4-byte pixel group `[Y, Cb, Cr, K]` to
`[434.456 − Y − 1.402·Cr, 119.541 − Y + 0.344·Cb + 0.714·Cr,
481.816 − Y − 1.772·Cb, K]`, each result converted to an 8-bit unsigned
sample by the Rust float-to-int cast — truncation toward zero saturated into
`[0, 255]`, not reduction mod 256; in particular the pixel
`[Y=0, Cb=0, Cr=0, K=255]` maps to `[255, 119, 255, 255]`. -/
theorem dct_ycck_post_transform (j : JpegModel) (ct : Option ℕ) (d : List ℕ)
    (hh : j.header = some ColorSpace.YCCK)
    (hd : j.decodeWith ColorSpace.YCCK = some d) :
    decode j ct = some (ycck_to_cmyk d)
    ∧ (∀ y cb cr k rest, ycck_to_cmyk (y :: cb :: cr :: k :: rest)
        = ycck_pixel y cb cr k ++ ycck_to_cmyk rest)
    ∧ ycck_to_cmyk [0, 0, 0, 255] = [255, 119, 255, 255] := by
  refine ⟨?_, fun y cb cr k rest => rfl, by decide⟩
  have hcs : infer_out_colorspace ColorSpace.YCCK ct = ColorSpace.YCCK := rfl
  rw [decode, hh]
  simp only [hcs, hd, if_true]

/-- Witness for C5 (amended): the concrete YCCK JPEG model `jYcck` decodes to
the saturated pixel values. -/
theorem dct_ycck_post_transform_witness :
    jYcck.header = some ColorSpace.YCCK
    ∧ jYcck.decodeWith ColorSpace.YCCK = some [0, 0, 0, 255]
    ∧ decode jYcck none = some [255, 119, 255, 255] := by
  refine ⟨rfl, rfl, ?_⟩
  have h := dct_ycck_post_transform jYcck none [0, 0, 0, 255] rfl rfl
  rw [h.1, h.2.2]

/-- C6: the code of `skip_in_content_stream` passes `false` — not `true` — as
the content-stream flag to the generic `skip`, identically to
`skip_not_in_content_stream`; a flag-sensitive `Skippable` implementation
(`flagSkip`, which succeeds only in content-stream mode) observes the
difference: through `skip_in_content_stream` it fails, while a `skip` with
the flag `true` would have succeeded. -/
theorem skip_in_content_stream_passes_false :
    (∀ (g : SkipFn) (r : Reader),
        Reader.skip_in_content_stream g r = Reader.skip g r false
        ∧ Reader.skip_not_in_content_stream g r = Reader.skip g r false)
    ∧ Reader.skip_in_content_stream flagSkip (Reader.new [7])
        = (none, Reader.new [7])
    ∧ Reader.skip flagSkip (Reader.new [7]) true
        = (some [7], Reader.new_with [7] 1) := by
  exact ⟨fun g r => ⟨rfl, rfl⟩, by decide, by decide⟩

/-- C10: `read_without_context` parses under
`ReaderContext::new(XRef::dummy(), true)` — content-stream mode on — while
`ReaderContext::dummy` and `Readable::from_bytes_impl` use the flag `false`;
a grammar that branches on the flag (`flagGrammar`, returning it) therefore
yields different results through the two entry points on the same bytes. -/
theorem read_without_context_mode :
    (∀ r : Reader, Reader.read_without_context ctxGrammar r
        = (some (ReaderContext.new XRef.dummy true), r))
    ∧ (ReaderContext.new XRef.dummy true).in_content_stream = true
    ∧ ReaderContext.dummy.in_content_stream = false
    ∧ (∀ b : List ℕ, from_bytes_impl ctxGrammar b
        = some (ReaderContext.new XRef.dummy false))
    ∧ (Reader.read_without_context flagGrammar (Reader.new [])).1 = some true
    ∧ from_bytes_impl flagGrammar ([] : List ℕ) = some false := by
  exact ⟨fun r => rfl, rfl, rfl, fun b => rfl, rfl, rfl⟩
